import Mathlib

/-!
Shallow embedding of the gudenau/go-launcher download pipeline
(file.go, http.go, jdk.go, and the main/unnamed source file), together
with theorems settling the specification claims about it.

Modelling conventions:
* Go byte slices are `List Nat`; file contents are byte lists.
* The filesystem is a total map `String → Option (List Nat)` plus a
  flag telling which paths `os.Remove` would fail on; directory
  creation is tracked only as a trace event (the non-Windows build of
  the thin wrappers in part_001 / file.go is embedded).
* The network is a total map from URL to a response model.
* The cryptographic digests (crypto/sha1, crypto/sha256) are library
  code, not code of this repository; they are passed in as an opaque
  `HashImpl` parameter, and the trace records which algorithm a call
  selects.
* Every embedded operation returns its Go result together with the
  ordered trace of I/O events it performed, so that ordering claims
  ("before any I/O", "no network request") are statable.
-/

/-- Which digest algorithm a call selects (crypto/sha1 vs crypto/sha256). -/
inductive Algorithm where
  | sha1
  | sha256
  deriving DecidableEq, Repr

/-- An observable I/O action, in the order the Go code performs them. -/
inductive Event where
  | fsStat (path : String)
  | fsOpen (path : String)
  | fsCreate (path : String)
  | fsMkdirAll (path : String)
  | fsRemove (path : String)
  | netGet (url : String)
  | digest (alg : Algorithm)
  | unmarshalJson
  deriving DecidableEq, Repr

/-- Go error values as built by this code base: `errors.New` messages,
`errors.Join` of two non-nil errors, and errors bubbling up from the
standard library (os / net/http / io / encoding-json). -/
inductive GoErr where
  | msg (s : String)
  | join (a b : GoErr)
  | osError (op : String) (arg : String)
  deriving DecidableEq, Repr

/-- Result of `http.Get url` followed by reading the body: either the
connection fails, or a status code arrives and the body read either
yields the full bytes or fails mid-transfer. -/
inductive NetResult where
  | connError
  | response (status : Nat) (body : Except Unit (List Nat))
  deriving Repr

def Net : Type := String → NetResult

/-- The filesystem state seen by the thin wrappers of part_001:
file contents by path, and which paths `os.Remove` fails on. -/
structure Fs where
  files : String → Option (List Nat)
  removeFails : String → Bool

/-- The two digest primitives from the Go standard library, producing
lower-case hexadecimal strings. Library code, hence a parameter. -/
structure HashImpl where
  sha1Hex : List Nat → String
  sha256Hex : List Nat → String

def Fs.setFile (fs : Fs) (path : String) (content : List Nat) : Fs :=
  { fs with files := fun p => if p = path then some content else fs.files p }

def Fs.removeFile (fs : Fs) (path : String) : Fs :=
  { fs with files := fun p => if p = path then none else fs.files p }

/-- Go `fileExists` (part_001): `os.Stat` succeeds iff the file is present. -/
def fileExists (fs : Fs) (path : String) : Bool :=
  (fs.files path).isSome

/-- Go `hashFile` (file.go lines 17-48): opens the file, then switches on
`len(sha)` — 40 selects crypto/sha1, 64 selects crypto/sha256, anything
else is the "Unknown hash size" error — then streams the file through
the digest and compares the hex encoding with `sha`.
Note the open happens before the size switch, exactly as in the source. -/
def hashFile (impl : HashImpl) (fs : Fs) (path : String) (sha : String) :
    Except GoErr Bool × List Event :=
  match fs.files path with
  | none =>
      (Except.error (GoErr.join (GoErr.msg ("failed to hash file " ++ path))
        (GoErr.osError "open" path)), [Event.fsOpen path])
  | some content =>
      if sha.length = 40 then
        (Except.ok (impl.sha1Hex content == sha),
          [Event.fsOpen path, Event.digest Algorithm.sha1])
      else if sha.length = 64 then
        (Except.ok (impl.sha256Hex content == sha),
          [Event.fsOpen path, Event.digest Algorithm.sha256])
      else
        (Except.error (GoErr.msg ("Unknown hash size " ++ toString sha.length)),
          [Event.fsOpen path])

/-- Go `validateHash` (file.go lines 52-67): if the file exists, hash it;
on a hash error wrap and propagate; on mismatch delete the file
(failure to delete is itself an error) and return false; on match
return true.  A missing file is false with no error. -/
def validateHash (impl : HashImpl) (fs : Fs) (path : String) (sha : String) :
    Except GoErr Bool × Fs × List Event :=
  if fileExists fs path then
    match hashFile impl fs path sha with
    | (Except.error e, ev) =>
        (Except.error (GoErr.join
          (GoErr.msg ("could not validate hash of " ++ path)) e), fs,
          Event.fsStat path :: ev)
    | (Except.ok result, ev) =>
        if !result then
          if fs.removeFails path then
            (Except.error (GoErr.join
              (GoErr.msg ("could not delete corrupted file " ++ path))
              (GoErr.osError "remove" path)), fs,
              Event.fsStat path :: ev ++ [Event.fsRemove path])
          else
            (Except.ok false, fs.removeFile path,
              Event.fsStat path :: ev ++ [Event.fsRemove path])
        else
          (Except.ok true, fs, Event.fsStat path :: ev)
  else
    (Except.ok false, fs, [Event.fsStat path])

/-- Models `filepath.Dir` for the slash-separated paths this launcher builds:
everything before the final slash ("." when there is none, "/" at the
root).  `filepath.Clean` normalisation is not modelled; no claim
depends on it — the result only feeds `createParents`. -/
def filepathDir (p : String) : String :=
  match (p.toList.reverse.dropWhile (fun c => c ≠ '/')) with
  | [] => "."
  | _ :: tail => if tail = [] then "/" else String.mk tail.reverse

/-- Models `os.Remove` with the result discarded (`_ = os.Remove(path)` in
downloadFileRaw's transfer-error branch): the file stays if removal
would fail. -/
def Fs.removeIgnoringError (fs : Fs) (path : String) : Fs :=
  if fs.removeFails path then fs else fs.removeFile path

/-- The tail of `downloadFileRaw` (http.go lines 39-74) after the
cache check: create parents, create/truncate the destination, GET the
URL, check the status, stream the body to the file (deleting the
partial file on a transfer error), and re-validate when a hash was
supplied.  `response.Status` is modelled as the decimal status code. -/
def downloadFileFetch (impl : HashImpl) (fs : Fs) (net : Net)
    (path url : String) (hash : Option String) :
    Except GoErr Unit × Fs × List Event :=
  let ev0 := [Event.fsMkdirAll (filepathDir path), Event.fsCreate path]
  let fs1 := fs.setFile path []
  match net url with
  | NetResult.connError =>
      (Except.error (GoErr.join (GoErr.msg ("failed to download " ++ url))
        (GoErr.osError "httpGet" url)), fs1, ev0 ++ [Event.netGet url])
  | NetResult.response status body =>
      if status / 100 ≠ 2 then
        (Except.error (GoErr.msg ("failed to download " ++ url ++ ": "
          ++ toString status)), fs1, ev0 ++ [Event.netGet url])
      else
        match body with
        | Except.error _ =>
            (Except.error (GoErr.join
              (GoErr.msg ("failed to download " ++ url))
              (GoErr.osError "ioCopy" url)),
              fs1.removeIgnoringError path,
              ev0 ++ [Event.netGet url, Event.fsRemove path])
        | Except.ok bytes =>
            let fs2 := fs1.setFile path bytes
            let ev2 := ev0 ++ [Event.netGet url]
            match hash with
            | none => (Except.ok (), fs2, ev2)
            | some h =>
                match validateHash impl fs2 path h with
                | (Except.error e, fs3, ev) =>
                    (Except.error (GoErr.join
                      (GoErr.msg ("could not validate hash of " ++ path)) e),
                      fs3, ev2 ++ ev)
                | (Except.ok true, fs3, ev) => (Except.ok (), fs3, ev2 ++ ev)
                | (Except.ok false, fs3, ev) =>
                    (Except.error (GoErr.msg ("download " ++ path
                      ++ " failed to download")), fs3, ev2 ++ ev)

/-- Go `downloadFileRaw` (http.go lines 27-75): when a hash is supplied,
first consult `validateHash`; a validation error propagates wrapped, a
match returns success immediately (the cache-hit path), and only on a
miss does the network transfer in `downloadFileFetch` run. -/
def downloadFileRaw (impl : HashImpl) (fs : Fs) (net : Net)
    (path url : String) (hash : Option String) :
    Except GoErr Unit × Fs × List Event :=
  match hash with
  | none => downloadFileFetch impl fs net path url none
  | some h =>
      match validateHash impl fs path h with
      | (Except.error e, fs1, ev) =>
          (Except.error (GoErr.join
            (GoErr.msg ("failed to validate " ++ path)) e), fs1, ev)
      | (Except.ok true, fs1, ev) => (Except.ok (), fs1, ev)
      | (Except.ok false, fs1, ev) =>
          let r := downloadFileFetch impl fs1 net path url (some h)
          (r.1, r.2.1, ev ++ r.2.2)

/-- Go `downloadJsonRaw` (http.go lines 85-114): GET the URL into memory;
non-2xx is fatal; when a hash is supplied, a crypto/sha1 digest of the
raw bytes is compared with it before parsing (whatever the hash's
length), and only after that check does `json.Unmarshal` run on the
target.  `unmarshal` stands for `json.Unmarshal` at the target's type;
the α component of the result is the final value of `structure`. -/
def downloadJsonRaw {α : Type} (impl : HashImpl) (net : Net) (url : String)
    (hash : Option String) (unmarshal : List Nat → α → Except GoErr α)
    (structv : α) : Except GoErr Unit × α × List Event :=
  match net url with
  | NetResult.connError =>
      (Except.error (GoErr.join (GoErr.msg ("failed to download " ++ url))
        (GoErr.osError "httpGet" url)), structv, [Event.netGet url])
  | NetResult.response status body =>
      if status / 100 ≠ 2 then
        (Except.error (GoErr.msg ("failed to download " ++ url ++ ": "
          ++ toString status)), structv, [Event.netGet url])
      else
        match body with
        | Except.error _ =>
            (Except.error (GoErr.join
              (GoErr.msg ("failed to copy " ++ url ++ " into a buffer"))
              (GoErr.osError "readAll" url)), structv, [Event.netGet url])
        | Except.ok buffer =>
            let checked :
                Except GoErr Unit × List Event :=
              match hash with
              | none => (Except.ok (), [Event.netGet url])
              | some h =>
                  let calculated := impl.sha1Hex buffer
                  if calculated ≠ h then
                    (Except.error (GoErr.msg ("failed to verify hash of "
                      ++ url ++ ", got " ++ calculated ++ " and expected "
                      ++ h)),
                      [Event.netGet url, Event.digest Algorithm.sha1])
                  else
                    (Except.ok (),
                      [Event.netGet url, Event.digest Algorithm.sha1])
            match checked with
            | (Except.error e, ev) => (Except.error e, structv, ev)
            | (Except.ok _, ev) =>
                match unmarshal buffer structv with
                | Except.error pe =>
                    (Except.error (GoErr.join
                      (GoErr.msg ("Failed to parse JSON of " ++ url)) pe),
                      structv, ev ++ [Event.unmarshalJson])
                | Except.ok a =>
                    (Except.ok (), a, ev ++ [Event.unmarshalJson])

/-- A conditional rule (part_000 lines 46-53).  The Go `Features` map
is embedded as an association list iterated pairwise (a Go map pairs
each key with exactly one value, so iterating pairs is the map
iteration of the source); the empty string is Go's zero value for an
absent `os.arch` / `os.name`. -/
structure Rule where
  action : String
  features : List (String × Bool)
  osArch : String
  osName : String
  deriving DecidableEq, Repr

/-- Go `Rule.testRule` (part_000 lines 72-91): every required feature must
be present in `features` with an equal value, and each of `os.arch` /
`os.name`, when non-empty, must equal the running platform's
`runtime.GOARCH` / `runtime.GOOS` (passed in as `goarch` / `goos`). -/
def Rule.testRule (rule : Rule) (features : String → Option Bool)
    (goarch goos : String) : Bool :=
  rule.features.all (fun kv =>
    match features kv.1 with
    | none => false
    | some value => value == kv.2) &&
  !(rule.osArch != "" && goarch != rule.osArch) &&
  !(rule.osName != "" && goos != rule.osName)

/-- The loop of `testRules` (part_000 lines 60-67): fold the rules in
order over the running `action`, each matching rule overwriting it. -/
def testRulesLoop (features : String → Option Bool) (goarch goos : String)
    (rules : List Rule) (action : String) : String :=
  rules.foldl (fun action rule =>
    if rule.testRule features goarch goos then rule.action else action) action

/-- Go `testRules` (part_000 lines 55-70): an empty rule list is allow;
otherwise the action starts as "disallow", the loop runs, and the item
is allowed iff the final action is "allow". -/
def testRules (rules : List Rule) (features : String → Option Bool)
    (goarch goos : String) : Bool :=
  if rules.length = 0 then true
  else testRulesLoop features goarch goos rules "disallow" == "allow"

/-- Go `AssetEntry` (part_000 lines 259-262). -/
structure AssetEntry where
  hash : String
  size : Nat
  deriving DecidableEq, Repr

/-- Go `Artifact` (part_000 lines 93-98). -/
structure Artifact where
  path : String
  sha1 : String
  size : Nat
  url : String
  deriving DecidableEq, Repr

/-- Go `Library` (part_000 lines 108-114), flattening the anonymous
`Downloads` wrapper around its single `Artifact` field. -/
structure Library where
  artifact : Artifact
  name : String
  rules : List Rule
  deriving DecidableEq, Repr

/-- The deduplication loop of `downloadAssets` (part_000 lines
437-451): iterate the asset objects (a Go map, so in some enumeration
order — hence a list parameter), skip any whose hash is already in the
`downloaded` set, and launch one download per surviving entry.  The
result is the list of launched entries in launch order. -/
def assetStep (acc : List String × List AssetEntry) (kv : String × AssetEntry) :
    List String × List AssetEntry :=
  if acc.1.contains kv.2.hash then acc
  else (acc.1 ++ [kv.2.hash], acc.2 ++ [kv.2])

def assetLaunches (objects : List (String × AssetEntry)) : List AssetEntry :=
  (objects.foldl assetStep ([], [])).2

/-- The scheduling loop of `downloadLibraries` (part_000 lines
470-483): every library whose rules allow it contributes one classpath
entry and one launched download — there is no deduplication of any
kind in this loop.  The result is the classpath (one path per launched
download, in input order). -/
def libraryLaunches (base : String) (libraries : List Library)
    (features : String → Option Bool) (goarch goos : String) : List String :=
  (libraries.foldl (fun classpath library =>
    if testRules library.rules features goarch goos then
      classpath ++ [base ++ "/library/" ++ library.artifact.path]
    else classpath) [])

/-- Models `errors.Join(err, e)` as used in the collector loops: nil when both
sides are nil, the non-nil side when only one is, a joined error when
both are.  (Go wraps a single non-nil argument in a one-element join
node; only the underlying error list is observable, which this
preserves.) -/
def goJoin2 (a b : Option GoErr) : Option GoErr :=
  match a, b with
  | none, none => none
  | some a, none => some a
  | none, some b => some b
  | some a, some b => some (GoErr.join a b)

/-- The collector loop shared by `downloadAssets` (lines 453-457) and
`downloadLibraries` (lines 485-490): starting from a nil error, join
in one completion outcome per launched unit, in arrival order. -/
def collectErrors (outcomes : List (Option GoErr)) : Option GoErr :=
  outcomes.foldl goJoin2 none

/-- Join a list of (non-nil) errors left-to-right; none when empty. -/
def joinAll (errs : List GoErr) : Option GoErr :=
  match errs with
  | [] => none
  | e :: es => some (es.foldl GoErr.join e)

/-- Models the `downloadAssets` batch result (part_000 lines 437-459) as a
function of the object list and the per-unit completion outcomes
(`outcomes i` is what unit `i`, in launch order, sends on the
channel): the collector consumes exactly one outcome per launched
unit — `length = len(downloaded)` in the source — and joins them. -/
def downloadAssetsResult (objects : List (String × AssetEntry))
    (outcomes : Nat → Option GoErr) : Option GoErr :=
  collectErrors ((List.range (assetLaunches objects).length).map outcomes)

/-- Models the `downloadLibraries` batch error (part_000 lines 470-493) as a
function of the scheduled libraries and per-unit outcomes: one outcome
is collected per classpath entry, i.e. per launched unit. -/
def downloadLibrariesError (base : String) (libraries : List Library)
    (features : String → Option Bool) (goarch goos : String)
    (outcomes : Nat → Option GoErr) : Option GoErr :=
  collectErrors ((List.range
    (libraryLaunches base libraries features goarch goos).length).map outcomes)

/-- Modelled from the spec (§3 Download task): the dedup key the spec
prescribes — the expected hash when present, else the destination
path — and the number of distinct such keys in a batch.  This is the
spec's view, kept for comparison with the source's scheduling loops. -/
def specDedupKeyCount (tasks : List (String × Option String)) : Nat :=
  ((tasks.map (fun task =>
    match task.2 with
    | some h => h
    | none => task.1)).dedup).length

/-- archive/tar's `TypeReg` constant, the byte '0'. -/
def tarTypeReg : Char := '0'

/-- archive/tar's `TypeSymlink` constant, the byte '2'. -/
def tarTypeSymlink : Char := '2'

/-- archive/tar's `TypeDir` constant, the byte '5'. -/
def tarTypeDir : Char := '5'

/-- A decoded tar header plus the entry's byte stream (the decoding of
the gzip/tar byte format is archive/tar and compress/gzip library
code; `extractTar` consumes the resulting entry sequence). -/
structure TarEntry where
  typeflag : Char
  name : String
  mode : Nat
  linkname : String
  body : List Nat
  deriving DecidableEq, Repr

/-- Filesystem state as the extractor sees it: regular files carry
their permission bits and contents, created directories and symlink
targets are tracked separately. -/
structure XFs where
  files : String → Option (Nat × List Nat)
  dirs : List String
  links : String → Option String

/-- The effect of one supported tar entry on disk (jdk.go lines
103-136): a directory entry runs `createParents` on
`destination + header.Name`; a regular-file entry creates that path
with `os.FileMode(header.Mode)` and copies the entry's bytes into it;
a symlink entry creates a link there pointing at `header.Linkname`. -/
def applyTarEntry (destination : String) (fs : XFs) (e : TarEntry) : XFs :=
  if e.typeflag = tarTypeDir then
    { fs with dirs := fs.dirs ++ [destination ++ e.name] }
  else if e.typeflag = tarTypeReg then
    { fs with files := fun p =>
        if p = destination ++ e.name then some (e.mode, e.body)
        else fs.files p }
  else if e.typeflag = tarTypeSymlink then
    { fs with links := fun p =>
        if p = destination ++ e.name then some e.linkname
        else fs.links p }
  else fs

/-- Whether `extractTar`'s switch has a case for this entry. -/
def TarEntry.supported (e : TarEntry) : Bool :=
  e.typeflag = tarTypeDir || e.typeflag = tarTypeReg
    || e.typeflag = tarTypeSymlink

/-- The entry loop of `extractTar` (jdk.go lines 93-145): entries are
processed strictly in sequence; each supported kind is applied to
disk, any other typeflag aborts with the "don't know how to handle"
error naming the entry and the archive, and exhausting the entries
(`io.EOF`) leaves the loop successfully.  Disk I/O failures are not
modelled (the claims under proof concern entry dispatch, not disk
errors). -/
def extractTarEntries (destination source : String) :
    List TarEntry → XFs → Except GoErr XFs
  | [], fs => Except.ok fs
  | e :: rest, fs =>
      if e.supported then
        extractTarEntries destination source rest (applyTarEntry destination fs e)
      else
        Except.error (GoErr.msg ("don\x27t know how to handle " ++ e.name
          ++ " in " ++ source))

lemma testRulesLoop_no_match (features : String → Option Bool)
    (goarch goos : String) (rules : List Rule) (init : String)
    (h : ∀ r ∈ rules, r.testRule features goarch goos = false) :
    testRulesLoop features goarch goos rules init = init := by
  induction rules generalizing init with
  | nil => rfl
  | cons r rest ih =>
      have hr := h r (List.mem_cons_self r rest)
      have hstep : testRulesLoop features goarch goos (r :: rest) init
          = testRulesLoop features goarch goos rest init := by
        simp [testRulesLoop, List.foldl_cons, hr]
      rw [hstep]
      exact ih init (fun x hx => h x (List.mem_cons_of_mem r hx))

lemma testRulesLoop_append (features : String → Option Bool)
    (goarch goos : String) (l1 l2 : List Rule) (init : String) :
    testRulesLoop features goarch goos (l1 ++ l2) init
      = testRulesLoop features goarch goos l2
          (testRulesLoop features goarch goos l1 init) := by
  simp [testRulesLoop, List.foldl_append]

/-- C1: evaluating an empty rule sequence yields allow; a non-empty
sequence starts from the disallow decision, every matching rule
overwrites it in order (so the last matching rule's action decides,
and a sequence with no matching rule stays disallow), and the final
decision is what `testRules` returns. -/
theorem c1_rule_ladder (features : String → Option Bool)
    (goarch goos : String) :
    testRules [] features goarch goos = true
    ∧ (∀ rules : List Rule, rules ≠ [] →
        (∀ r ∈ rules, r.testRule features goarch goos = false) →
        testRules rules features goarch goos = false)
    ∧ (∀ (l1 : List Rule) (r : Rule) (l2 : List Rule),
        r.testRule features goarch goos = true →
        (∀ r2 ∈ l2, r2.testRule features goarch goos = false) →
        testRules (l1 ++ r :: l2) features goarch goos
          = (r.action == "allow")) := by
  refine ⟨rfl, ?_, ?_⟩
  · intro rules hne hnone
    have hlen : rules.length ≠ 0 := by
      simpa [List.length_eq_zero] using hne
    simp [testRules, hlen, testRulesLoop_no_match features goarch goos rules
      "disallow" hnone]
  · intro l1 r l2 hr hl2
    have hlen : (l1 ++ r :: l2).length ≠ 0 := by simp
    have hloop : testRulesLoop features goarch goos (l1 ++ r :: l2) "disallow"
        = r.action := by
      rw [testRulesLoop_append]
      have hstep : testRulesLoop features goarch goos (r :: l2)
          (testRulesLoop features goarch goos l1 "disallow")
          = testRulesLoop features goarch goos l2 r.action := by
        simp [testRulesLoop, List.foldl_cons, hr]
      rw [hstep, testRulesLoop_no_match features goarch goos l2 r.action hl2]
    simp [testRules, hlen, hloop]

/-- A concrete digest implementation for closed instances: every input
digests to a fixed 40-hex SHA-1 string and a fixed 64-hex SHA-256
string. -/
def implT : HashImpl :=
  ⟨fun _ => "aaaaaaaaaaaaaaaaaaaaaaaaaaaaaaaaaaaaaaaa",
   fun _ => "bbbbbbbbbbbbbbbbbbbbbbbbbbbbbbbbbbbbbbbbbbbbbbbbbbbbbbbbbbbbbbbb"⟩

/-- The 64-character value `implT.sha256Hex` always produces. -/
def h64T : String :=
  "bbbbbbbbbbbbbbbbbbbbbbbbbbbbbbbbbbbbbbbbbbbbbbbbbbbbbbbbbbbbbbbb"

/-- A concrete filesystem holding one two-byte file at "f". -/
def fsT : Fs := ⟨fun p => if p = "f" then some [1, 2] else none, fun _ => false⟩

/-- A concrete network answering every URL with 200 and bytes 1,2,3. -/
def netT : Net := fun _ => NetResult.response 200 (Except.ok [1, 2, 3])

/-- A concrete always-succeeding stand-in for `json.Unmarshal`. -/
def umNat : List Nat → Nat → Except GoErr Nat := fun _ s => Except.ok (s + 1)

/-- Counterexample to C2 as stated: with a file present at "f", a
3-character hash reaches the "Unknown hash size" failure only *after*
the file has been opened (the trace already holds the open); and on
the in-memory JSON path a 64-character hash does *not* select the
strong algorithm — the code digests with SHA-1 unconditionally, after
the network GET, even though the counterexample's SHA-256 of the body
equals the expected hash. -/
theorem c2_counterexample :
    hashFile implT fsT "f" "abc"
      = (Except.error (GoErr.msg ("Unknown hash size " ++ toString ("abc".length))),
         [Event.fsOpen "f"])
    ∧ h64T.length = 64
    ∧ implT.sha256Hex [1, 2, 3] = h64T
    ∧ (downloadJsonRaw implT netT "u" (some h64T) umNat 0).2.2
      = [Event.netGet "u", Event.digest Algorithm.sha1]
    ∧ (downloadJsonRaw implT netT "u" (some h64T) umNat 0).1
      = Except.error (GoErr.msg ("failed to verify hash of u, got "
          ++ implT.sha1Hex [1, 2, 3] ++ " and expected " ++ h64T)) := by
  refine ⟨rfl, by decide, rfl, ?_, ?_⟩ <;> rfl

/-- C2 amended: in the file-digest path a 40-character hash selects
SHA-1 and a 64-character hash selects SHA-256, and any other length
fails with the unknown-hash-size error, but only after the file open
(the trace already holds the open event); the in-memory JSON path
performs no length-based selection at all — whatever the hash's
length, it digests the raw bytes with SHA-1, and only after the
network GET. -/
theorem c2_amended {α : Type} (impl : HashImpl) (fs : Fs) (net : Net)
    (path sha url : String) (content : List Nat)
    (um : List Nat → α → Except GoErr α) (s : α)
    (hfile : fs.files path = some content) :
    (sha.length = 40 → hashFile impl fs path sha
        = (Except.ok (impl.sha1Hex content == sha),
           [Event.fsOpen path, Event.digest Algorithm.sha1]))
    ∧ (sha.length = 64 → hashFile impl fs path sha
        = (Except.ok (impl.sha256Hex content == sha),
           [Event.fsOpen path, Event.digest Algorithm.sha256]))
    ∧ (sha.length ≠ 40 → sha.length ≠ 64 → hashFile impl fs path sha
        = (Except.error (GoErr.msg ("Unknown hash size "
            ++ toString sha.length)), [Event.fsOpen path]))
    ∧ (∀ (status : Nat) (buffer : List Nat),
        net url = NetResult.response status (Except.ok buffer) →
        status / 100 = 2 →
        (downloadJsonRaw impl net url (some sha) um s).2.2.head?
            = some (Event.netGet url)
          ∧ Event.digest Algorithm.sha1
              ∈ (downloadJsonRaw impl net url (some sha) um s).2.2
          ∧ Event.digest Algorithm.sha256
              ∉ (downloadJsonRaw impl net url (some sha) um s).2.2) := by
  refine ⟨?_, ?_, ?_, ?_⟩
  · intro h40
    simp [hashFile, hfile, h40]
  · intro h64
    have hne : sha.length ≠ 40 := by omega
    simp [hashFile, hfile, hne, h64]
  · intro hne40 hne64
    simp [hashFile, hfile, hne40, hne64]
  · intro status buffer hnet h2xx
    by_cases hc : impl.sha1Hex buffer = sha
    · cases hum : um buffer s with
      | error pe =>
          simp [downloadJsonRaw, hnet, h2xx, hc, hum]
      | ok a =>
          simp [downloadJsonRaw, hnet, h2xx, hc, hum]
    · simp [downloadJsonRaw, hnet, h2xx, hc]

/-- Witness for C2 amended: a 2-character hash on an existing file
yields the unknown-hash-size error with the open already performed,
and the JSON path's trace starts with the network GET. -/
theorem c2_amended_witness :
    fsT.files "f" = some [1, 2]
    ∧ hashFile implT fsT "f" "ab"
        = (Except.error (GoErr.msg ("Unknown hash size "
            ++ toString ("ab".length))), [Event.fsOpen "f"])
    ∧ (downloadJsonRaw implT netT "f" (some "ab") umNat 0).2.2.head?
        = some (Event.netGet "f") := by
  refine ⟨rfl, ?_, ?_⟩
  · exact (c2_amended implT fsT netT "f" "ab" "f" [1, 2] umNat 0 rfl).2.2.1
      (by decide) (by decide)
  · exact ((c2_amended implT fsT netT "f" "ab" "f" [1, 2] umNat 0 rfl).2.2.2
      200 [1, 2, 3] rfl (by decide)).1

/-- A concrete network answering every URL with status 404. -/
def netT404 : Net := fun _ => NetResult.response 404 (Except.ok [])

/-- The 40-character value `implT.sha1Hex` always produces. -/
def h40T : String := "aaaaaaaaaaaaaaaaaaaaaaaaaaaaaaaaaaaaaaaa"

lemma validateHash_of_hashFile (impl : HashImpl) (fs : Fs)
    (path sha : String) (b : Bool) (ev : List Event)
    (hh : hashFile impl fs path sha = (Except.ok b, ev))
    (hex : fileExists fs path = true) :
    validateHash impl fs path sha =
      if b then (Except.ok true, fs, Event.fsStat path :: ev)
      else if fs.removeFails path then
        (Except.error (GoErr.join
          (GoErr.msg ("could not delete corrupted file " ++ path))
          (GoErr.osError "remove" path)), fs,
          Event.fsStat path :: ev ++ [Event.fsRemove path])
      else (Except.ok false, fs.removeFile path,
        Event.fsStat path :: ev ++ [Event.fsRemove path]) := by
  cases b with
  | true => simp [validateHash, hex, hh]
  | false => simp [validateHash, hex, hh]

lemma hashFile_of_selection (impl : HashImpl) (fs : Fs)
    (path sha dg : String) (content : List Nat)
    (hfile : fs.files path = some content)
    (hsel : (sha.length = 40 ∧ dg = impl.sha1Hex content)
      ∨ (sha.length = 64 ∧ dg = impl.sha256Hex content)) :
    ∃ alg, hashFile impl fs path sha
      = (Except.ok (dg == sha), [Event.fsOpen path, Event.digest alg]) := by
  rcases hsel with ⟨hlen, hdg⟩ | ⟨hlen, hdg⟩
  · exact ⟨Algorithm.sha1, by simp [hashFile, hfile, hlen, hdg]⟩
  · have hne : sha.length ≠ 40 := by omega
    exact ⟨Algorithm.sha256, by simp [hashFile, hfile, hne, hlen, hdg]⟩

/-- C6: when the file at `path` exists and its digest (under the
algorithm the hash's length selects) differs from the hash,
`validateHash` returns false — not an error — and the file is gone
afterwards; if deleting it fails, that is a fatal error instead; and
on a match it returns true leaving the filesystem untouched, so an
immediate second call also returns true. -/
theorem c6_validate_self_heal (impl : HashImpl) (fs : Fs)
    (path sha dg : String) (content : List Nat)
    (hfile : fs.files path = some content)
    (hsel : (sha.length = 40 ∧ dg = impl.sha1Hex content)
      ∨ (sha.length = 64 ∧ dg = impl.sha256Hex content)) :
    (dg ≠ sha → fs.removeFails path = false →
        (validateHash impl fs path sha).1 = Except.ok false
        ∧ (validateHash impl fs path sha).2.1 = fs.removeFile path
        ∧ (validateHash impl fs path sha).2.1.files path = none)
    ∧ (dg ≠ sha → fs.removeFails path = true →
        (validateHash impl fs path sha).1
          = Except.error (GoErr.join
              (GoErr.msg ("could not delete corrupted file " ++ path))
              (GoErr.osError "remove" path))
        ∧ (validateHash impl fs path sha).2.1 = fs)
    ∧ (dg = sha →
        (validateHash impl fs path sha).1 = Except.ok true
        ∧ (validateHash impl fs path sha).2.1 = fs
        ∧ (validateHash impl
            ((validateHash impl fs path sha).2.1) path sha).1
          = Except.ok true) := by
  have hex : fileExists fs path = true := by simp [fileExists, hfile]
  obtain ⟨alg, hh⟩ := hashFile_of_selection impl fs path sha dg content
    hfile hsel
  refine ⟨?_, ?_, ?_⟩
  · intro hne hrm
    have hb : (dg == sha) = false := by simp [hne]
    rw [validateHash_of_hashFile impl fs path sha _ _ hh hex, hb]
    simp [hrm, Fs.removeFile]
  · intro hne hrm
    have hb : (dg == sha) = false := by simp [hne]
    rw [validateHash_of_hashFile impl fs path sha _ _ hh hex, hb]
    simp [hrm]
  · intro heq
    have hb : (dg == sha) = true := by simp [heq]
    have hv := validateHash_of_hashFile impl fs path sha _ _ hh hex
    rw [hb] at hv
    simp only [if_true] at hv
    rw [hv]
    refine ⟨rfl, rfl, ?_⟩
    rw [validateHash_of_hashFile impl fs path sha _ _ hh hex, hb]
    simp

/-- Witness for C6: a corrupted two-byte file at "f" (its digest is
`h40T`, the expected hash is a different 40-character value) validates
to false and is deleted; the matching hash validates to true twice. -/
theorem c6_validate_self_heal_witness :
    fsT.files "f" = some [1, 2]
    ∧ h40T ≠ "cccccccccccccccccccccccccccccccccccccccc"
    ∧ (validateHash implT fsT "f"
        "cccccccccccccccccccccccccccccccccccccccc").1 = Except.ok false
    ∧ (validateHash implT fsT "f"
        "cccccccccccccccccccccccccccccccccccccccc").2.1.files "f" = none
    ∧ (validateHash implT fsT "f" h40T).1 = Except.ok true
    ∧ (validateHash implT
        ((validateHash implT fsT "f" h40T).2.1) "f" h40T).1
      = Except.ok true := by
  have hmm := (c6_validate_self_heal implT fsT "f"
    "cccccccccccccccccccccccccccccccccccccccc" h40T [1, 2] rfl
    (Or.inl ⟨by decide, rfl⟩)).1 (by decide) rfl
  have hok := (c6_validate_self_heal implT fsT "f" h40T h40T [1, 2] rfl
    (Or.inl ⟨by decide, rfl⟩)).2.2 rfl
  exact ⟨rfl, by decide, hmm.1, hmm.2.2, hok.1, hok.2.2⟩

/-- C5: when a file already sits at the destination and its digest
(under the algorithm the hash's length selects) equals the expected
hash, `downloadFileRaw` succeeds immediately: the filesystem is
returned unchanged and the trace holds no network request, no file
creation and no deletion. -/
theorem c5_cache_hit (impl : HashImpl) (fs : Fs) (net : Net)
    (path url sha dg : String) (content : List Nat)
    (hfile : fs.files path = some content)
    (hsel : (sha.length = 40 ∧ dg = impl.sha1Hex content)
      ∨ (sha.length = 64 ∧ dg = impl.sha256Hex content))
    (hmatch : dg = sha) :
    (downloadFileRaw impl fs net path url (some sha)).1 = Except.ok ()
    ∧ (downloadFileRaw impl fs net path url (some sha)).2.1 = fs
    ∧ (∀ u, Event.netGet u
        ∉ (downloadFileRaw impl fs net path url (some sha)).2.2)
    ∧ (∀ p, Event.fsCreate p
        ∉ (downloadFileRaw impl fs net path url (some sha)).2.2)
    ∧ (∀ p, Event.fsRemove p
        ∉ (downloadFileRaw impl fs net path url (some sha)).2.2) := by
  have hex : fileExists fs path = true := by simp [fileExists, hfile]
  obtain ⟨alg, hh⟩ := hashFile_of_selection impl fs path sha dg content
    hfile hsel
  have hb : (dg == sha) = true := by simp [hmatch]
  have hv := validateHash_of_hashFile impl fs path sha _ _ hh hex
  rw [hb] at hv
  simp only [if_true] at hv
  have hd : downloadFileRaw impl fs net path url (some sha)
      = (Except.ok (), fs,
        Event.fsStat path :: [Event.fsOpen path, Event.digest alg]) := by
    simp [downloadFileRaw, hv]
  rw [hd]
  refine ⟨rfl, rfl, ?_, ?_, ?_⟩ <;> intro x <;> simp

/-- Witness for C5: the file at "f" digests to `h40T`; fetching with
expected hash `h40T` succeeds with the filesystem unchanged and no
network event in the trace. -/
theorem c5_cache_hit_witness :
    fsT.files "f" = some [1, 2]
    ∧ implT.sha1Hex [1, 2] = h40T
    ∧ (downloadFileRaw implT fsT netT404 "f" "u" (some h40T)).1
        = Except.ok ()
    ∧ (downloadFileRaw implT fsT netT404 "f" "u" (some h40T)).2.1 = fsT
    ∧ Event.netGet "u"
        ∉ (downloadFileRaw implT fsT netT404 "f" "u" (some h40T)).2.2 := by
  have h := c5_cache_hit implT fsT netT404 "f" "u" h40T h40T [1, 2] rfl
    (Or.inl ⟨by decide, rfl⟩) rfl
  exact ⟨rfl, rfl, h.1, h.2.1, h.2.2.1 "u"⟩

/-- C7: `downloadJsonRaw` digests the raw response bytes and compares
them with the expected hash before parsing: on a mismatch it fails
with the verify error and the target value is returned untouched, the
unmarshal never having run; once the check passes, a JSON parse
failure produces the parse error joined around the source URL, and a
parse success updates the target. -/
theorem c7_json_integrity {α : Type} (impl : HashImpl) (net : Net)
    (url sha : String) (um : List Nat → α → Except GoErr α) (s : α)
    (status : Nat) (buffer : List Nat)
    (hnet : net url = NetResult.response status (Except.ok buffer))
    (h2xx : status / 100 = 2) :
    (impl.sha1Hex buffer ≠ sha →
        downloadJsonRaw impl net url (some sha) um s
          = (Except.error (GoErr.msg ("failed to verify hash of " ++ url
              ++ ", got " ++ impl.sha1Hex buffer ++ " and expected " ++ sha)),
             s, [Event.netGet url, Event.digest Algorithm.sha1]))
    ∧ (∀ pe, impl.sha1Hex buffer = sha → um buffer s = Except.error pe →
        downloadJsonRaw impl net url (some sha) um s
          = (Except.error (GoErr.join
              (GoErr.msg ("Failed to parse JSON of " ++ url)) pe), s,
             [Event.netGet url, Event.digest Algorithm.sha1,
              Event.unmarshalJson]))
    ∧ (∀ a, impl.sha1Hex buffer = sha → um buffer s = Except.ok a →
        downloadJsonRaw impl net url (some sha) um s
          = (Except.ok (), a,
             [Event.netGet url, Event.digest Algorithm.sha1,
              Event.unmarshalJson])) := by
  refine ⟨?_, ?_, ?_⟩
  · intro hne
    simp [downloadJsonRaw, hnet, h2xx, hne]
  · intro pe heq hum
    simp [downloadJsonRaw, hnet, h2xx, heq, hum]
  · intro a heq hum
    simp [downloadJsonRaw, hnet, h2xx, heq, hum]

/-- Witness for C7: against the 200-response network, a mismatching
hash leaves the target value 0 untouched with no unmarshal event, and
with the matching hash the always-succeeding unmarshal updates it. -/
theorem c7_json_integrity_witness :
    netT "u" = NetResult.response 200 (Except.ok [1, 2, 3])
    ∧ implT.sha1Hex [1, 2, 3] ≠ h64T
    ∧ (downloadJsonRaw implT netT "u" (some h64T) umNat 0).2.1 = 0
    ∧ (downloadJsonRaw implT netT "u" (some h64T) umNat 0).2.2
        = [Event.netGet "u", Event.digest Algorithm.sha1]
    ∧ (downloadJsonRaw implT netT "u" (some h40T) umNat 0).2.1 = 1 := by
  have hmm := (c7_json_integrity implT netT "u" h64T umNat 0 200 [1, 2, 3]
    rfl (by decide)).1 (by decide)
  have hok := (c7_json_integrity implT netT "u" h40T umNat 0 200 [1, 2, 3]
    rfl (by decide)).2.2 1 rfl rfl
  refine ⟨rfl, by decide, ?_, ?_, ?_⟩
  · rw [hmm]
  · rw [hmm]
  · rw [hok]

/-- C10: when the cache check does not hit (no expected hash, or the
validation returned false) and the GET answers with a non-2xx status,
`downloadFileRaw` fails with the status error but the destination has
already been created and truncated — the final filesystem holds an
empty file at the path, and the trace ends with the mkdir, the create
and the GET, with no deletion after them. -/
theorem c10_non2xx_leftover (impl : HashImpl) (fs : Fs) (net : Net)
    (path url : String) (hash : Option String) (status : Nat)
    (body : Except Unit (List Nat))
    (hnet : net url = NetResult.response status body)
    (hbad : status / 100 ≠ 2)
    (hmiss : hash = none ∨ ∃ sha fs1 ev, hash = some sha
      ∧ validateHash impl fs path sha = (Except.ok false, fs1, ev)) :
    (downloadFileRaw impl fs net path url hash).1
      = Except.error (GoErr.msg ("failed to download " ++ url ++ ": "
          ++ toString status))
    ∧ (downloadFileRaw impl fs net path url hash).2.1.files path = some []
    ∧ ∃ pre, (downloadFileRaw impl fs net path url hash).2.2
        = pre ++ [Event.fsMkdirAll (filepathDir path),
            Event.fsCreate path, Event.netGet url] := by
  rcases hmiss with hnone | ⟨sha, fs1, ev, hsha, hval⟩
  · subst hnone
    refine ⟨?_, ?_, ⟨[], ?_⟩⟩ <;>
      simp [downloadFileRaw, downloadFileFetch, hnet, hbad, Fs.setFile]
  · subst hsha
    refine ⟨?_, ?_, ⟨ev, ?_⟩⟩ <;>
      simp [downloadFileRaw, downloadFileFetch, hnet, hbad, hval, Fs.setFile]

/-- Witness for C10: fetching "d" with no expected hash from the
404-network fails with the status error yet leaves an empty file at
"d". -/
theorem c10_non2xx_leftover_witness :
    netT404 "u" = NetResult.response 404 (Except.ok [])
    ∧ (404 : Nat) / 100 ≠ 2
    ∧ (downloadFileRaw implT fsT netT404 "d" "u" none).1
        = Except.error (GoErr.msg ("failed to download u: "
            ++ toString (404 : Nat)))
    ∧ (downloadFileRaw implT fsT netT404 "d" "u" none).2.1.files "d"
        = some [] := by
  have h := c10_non2xx_leftover implT fsT netT404 "d" "u" none 404
    (Except.ok []) rfl (by decide) (Or.inl rfl)
  exact ⟨rfl, by decide, h.1, h.2.1⟩

lemma featureCheck_eq_true (features : String → Option Bool)
    (kv : String × Bool) :
    ((match features kv.1 with
      | none => false
      | some value => value == kv.2) = true) ↔ features kv.1 = some kv.2 := by
  cases h : features kv.1 with
  | none => simp
  | some value => simp [beq_iff_eq]

/-- C8: a rule matches iff every required feature is present in the
feature set with an equal value, its os arch is unset (empty) or equal
to the current architecture, and its os name is unset or equal to the
current OS name; consequently a rule requiring a feature key absent
from the feature set never matches and leaves the evaluator's running
decision unchanged wherever it appears in the rule list. -/
theorem c8_rule_match (rule : Rule) (features : String → Option Bool)
    (goarch goos : String) :
    (rule.testRule features goarch goos = true ↔
      ((∀ kv ∈ rule.features, features kv.1 = some kv.2)
        ∧ (rule.osArch = "" ∨ goarch = rule.osArch)
        ∧ (rule.osName = "" ∨ goos = rule.osName)))
    ∧ (∀ k v, (k, v) ∈ rule.features → features k = none →
        rule.testRule features goarch goos = false
        ∧ ∀ (init : String) (l1 l2 : List Rule),
            testRulesLoop features goarch goos (l1 ++ rule :: l2) init
              = testRulesLoop features goarch goos (l1 ++ l2) init) := by
  have hiff : rule.testRule features goarch goos = true ↔
      ((∀ kv ∈ rule.features, features kv.1 = some kv.2)
        ∧ (rule.osArch = "" ∨ goarch = rule.osArch)
        ∧ (rule.osName = "" ∨ goos = rule.osName)) := by
    simp only [Rule.testRule, Bool.and_eq_true, List.all_eq_true,
      Bool.not_eq_true', Bool.and_eq_false_iff, bne_eq_false_iff_eq,
      Bool.not_eq_true, bne, Bool.not_eq_false', beq_iff_eq]
    constructor
    · rintro ⟨⟨hf, ha⟩, hn⟩
      refine ⟨fun kv hkv => (featureCheck_eq_true features kv).1 (hf kv hkv),
        ?_, ?_⟩
      · rcases ha with ha | ha
        · exact Or.inl ha
        · exact Or.inr ha
      · rcases hn with hn | hn
        · exact Or.inl hn
        · exact Or.inr hn
    · rintro ⟨hf, ha, hn⟩
      refine ⟨⟨fun kv hkv => (featureCheck_eq_true features kv).2 (hf kv hkv),
        ?_⟩, ?_⟩
      · rcases ha with ha | ha
        · exact Or.inl ha
        · exact Or.inr ha
      · rcases hn with hn | hn
        · exact Or.inl hn
        · exact Or.inr hn
  refine ⟨hiff, ?_⟩
  intro k v hkv hnone
  have hfalse : rule.testRule features goarch goos = false := by
    rcases h : rule.testRule features goarch goos with _ | _
    · rfl
    · exfalso
      have := (hiff.1 h).1 (k, v) hkv
      rw [hnone] at this
      exact Option.noConfusion this
  refine ⟨hfalse, ?_⟩
  intro init l1 l2
  rw [testRulesLoop_append, testRulesLoop_append]
  have hstep : testRulesLoop features goarch goos (rule :: l2)
      (testRulesLoop features goarch goos l1 init)
      = testRulesLoop features goarch goos l2
          (testRulesLoop features goarch goos l1 init) := by
    simp [testRulesLoop, List.foldl_cons, hfalse]
  rw [hstep]

/-- Witness for C8: a rule requiring the feature key "k" against an
empty feature set does not match and does not change the loop's
running decision. -/
theorem c8_rule_match_witness :
    (("k", true) ∈ ([("k", true)] : List (String × Bool)))
    ∧ ((fun _ => (none : Option Bool)) "k" = none)
    ∧ Rule.testRule ⟨"allow", [("k", true)], "", ""⟩
        (fun _ => none) "amd64" "linux" = false
    ∧ testRulesLoop (fun _ => none) "amd64" "linux"
        ([] ++ (⟨"allow", [("k", true)], "", ""⟩ : Rule) :: []) "disallow"
      = testRulesLoop (fun _ => none) "amd64" "linux" ([] ++ []) "disallow" := by
  have h := (c8_rule_match ⟨"allow", [("k", true)], "", ""⟩
    (fun _ => none) "amd64" "linux").2 "k" true (by simp) rfl
  exact ⟨by simp, rfl, h.1, h.2 "disallow" [] []⟩

/-- Witness for C1, instantiating the spec's worked example: no rules
is allow, and a disallow-on-windows rule followed by a matching allow
rule yields allow on a non-Windows platform (the later match wins). -/
theorem c1_rule_ladder_witness :
    testRules [] (fun _ => none) "amd64" "linux" = true
    ∧ testRules
        [⟨"disallow", [], "", "windows"⟩,
         ⟨"allow", [("demo", false)], "", ""⟩]
        (fun k => if k = "demo" then some false else none)
        "amd64" "linux" = true := by
  constructor
  · exact (c1_rule_ladder (fun _ => none) "amd64" "linux").1
  · have h := (c1_rule_ladder
        (fun k => if k = "demo" then some false else none) "amd64" "linux").2.2
        [⟨"disallow", [], "", "windows"⟩]
        ⟨"allow", [("demo", false)], "", ""⟩ []
        (by decide) (by intro r2 h2; simp at h2)
    simpa using h

lemma assetStep_of_mem (acc : List String × List AssetEntry)
    (kv : String × AssetEntry) (hm : kv.2.hash ∈ acc.1) :
    assetStep acc kv = acc := by
  simp [assetStep, hm]

lemma assetStep_of_not_mem (acc : List String × List AssetEntry)
    (kv : String × AssetEntry) (hm : kv.2.hash ∉ acc.1) :
    assetStep acc kv = (acc.1 ++ [kv.2.hash], acc.2 ++ [kv.2]) := by
  simp [assetStep, hm]

lemma assetFold_mem_fst (objects : List (String × AssetEntry)) :
    ∀ (acc : List String × List AssetEntry) (x : String), x ∈ acc.1 →
      x ∈ (objects.foldl assetStep acc).1 := by
  induction objects with
  | nil => intro acc x hx; exact hx
  | cons kv rest ih =>
      intro acc x hx
      rw [List.foldl_cons]
      apply ih
      by_cases hm : kv.2.hash ∈ acc.1
      · rw [assetStep_of_mem acc kv hm]; exact hx
      · rw [assetStep_of_not_mem acc kv hm]
        exact List.mem_append_left _ hx

lemma assetFold_fst_eq_map (objects : List (String × AssetEntry)) :
    ∀ acc : List String × List AssetEntry,
      acc.1 = acc.2.map AssetEntry.hash →
      (objects.foldl assetStep acc).1
        = (objects.foldl assetStep acc).2.map AssetEntry.hash := by
  induction objects with
  | nil => intro acc hacc; exact hacc
  | cons kv rest ih =>
      intro acc hacc
      rw [List.foldl_cons]
      apply ih
      by_cases hm : kv.2.hash ∈ acc.1
      · rw [assetStep_of_mem acc kv hm]; exact hacc
      · rw [assetStep_of_not_mem acc kv hm]
        simp [hacc]

lemma assetFold_nodup (objects : List (String × AssetEntry)) :
    ∀ acc : List String × List AssetEntry,
      acc.1.Nodup → (objects.foldl assetStep acc).1.Nodup := by
  induction objects with
  | nil => intro acc hacc; exact hacc
  | cons kv rest ih =>
      intro acc hacc
      rw [List.foldl_cons]
      apply ih
      by_cases hm : kv.2.hash ∈ acc.1
      · rw [assetStep_of_mem acc kv hm]; exact hacc
      · rw [assetStep_of_not_mem acc kv hm]
        simpa [List.nodup_append] using ⟨hacc, hm⟩

lemma assetFold_cover (objects : List (String × AssetEntry)) :
    ∀ (acc : List String × List AssetEntry) (kv : String × AssetEntry),
      kv ∈ objects → kv.2.hash ∈ (objects.foldl assetStep acc).1 := by
  induction objects with
  | nil => intro acc kv hkv; exact absurd hkv (List.not_mem_nil kv)
  | cons kv0 rest ih =>
      intro acc kv hkv
      rw [List.foldl_cons]
      rcases List.mem_cons.1 hkv with heq | hmem
      · subst heq
        apply assetFold_mem_fst
        by_cases hm : kv.2.hash ∈ acc.1
        · rw [assetStep_of_mem acc kv hm]; exact hm
        · rw [assetStep_of_not_mem acc kv hm]
          exact List.mem_append_right _ (List.mem_singleton_self _)
      · exact ih _ kv hmem

lemma assetFold_src (objects : List (String × AssetEntry)) :
    ∀ (acc : List String × List AssetEntry) (e : AssetEntry),
      e ∈ (objects.foldl assetStep acc).2 →
      e ∈ acc.2 ∨ ∃ k, (k, e) ∈ objects := by
  induction objects with
  | nil => intro acc e he; exact Or.inl he
  | cons kv0 rest ih =>
      intro acc e he
      rw [List.foldl_cons] at he
      rcases ih _ e he with hacc | ⟨k, hk⟩
      · by_cases hm : kv0.2.hash ∈ acc.1
        · rw [assetStep_of_mem acc kv0 hm] at hacc
          exact Or.inl hacc
        · rw [assetStep_of_not_mem acc kv0 hm] at hacc
          rcases List.mem_append.1 hacc with h1 | h2
          · exact Or.inl h1
          · refine Or.inr ⟨kv0.1, ?_⟩
            have he2 : e = kv0.2 := by simpa using h2
            subst he2
            exact List.mem_cons_self _ _
      · exact Or.inr ⟨k, List.mem_cons_of_mem _ hk⟩

/-- Asset fixtures: three tasks of which two share a hash. -/
def objT : List (String × AssetEntry) :=
  [("a", ⟨"h1", 1⟩), ("b", ⟨"h1", 2⟩), ("c", ⟨"h2", 3⟩)]

/-- A concrete library with no rules (always allowed). -/
def libT : Library := ⟨⟨"a/a.jar", h40T, 1, "u"⟩, "a", []⟩

/-- Counterexample to C3 as stated: scheduling the same library twice
— identical expected hash, identical destination path, hence one
distinct dedup key under the spec's definition — launches two physical
fetches, because `downloadLibraries` deduplicates nothing. -/
theorem c3_counterexample :
    (libraryLaunches "b" [libT, libT] (fun _ => none) "amd64" "linux").length
      = 2
    ∧ specDedupKeyCount
        [("b/library/a/a.jar", some h40T), ("b/library/a/a.jar", some h40T)]
      = 1 := by
  constructor
  · rfl
  · rfl

/-- C3 amended: only the asset batch deduplicates, and it keys on the
expected hash alone (always present for assets): the launched asset
fetches carry pairwise-distinct hashes, every task's hash is fetched
by some launch, and every launch stems from an input task — exactly
one fetch per distinct hash.  The library batch launches exactly one
fetch per rule-allowed task with no deduplication of any kind. -/
theorem c3_dedup (objects : List (String × AssetEntry)) (base : String)
    (libraries : List Library) (features : String → Option Bool)
    (goarch goos : String) :
    ((assetLaunches objects).map AssetEntry.hash).Nodup
    ∧ (∀ kv ∈ objects,
        kv.2.hash ∈ (assetLaunches objects).map AssetEntry.hash)
    ∧ (∀ e ∈ assetLaunches objects, ∃ k, (k, e) ∈ objects)
    ∧ (libraryLaunches base libraries features goarch goos).length
        = (libraries.filter
            (fun lib => testRules lib.rules features goarch goos)).length := by
  have hmap : (objects.foldl assetStep ([], [])).1
      = (objects.foldl assetStep ([], [])).2.map AssetEntry.hash :=
    assetFold_fst_eq_map objects ([], []) rfl
  refine ⟨?_, ?_, ?_, ?_⟩
  · have hnd := assetFold_nodup objects ([], []) List.nodup_nil
    rw [hmap] at hnd
    exact hnd
  · intro kv hkv
    have hcov := assetFold_cover objects ([], []) kv hkv
    rw [hmap] at hcov
    exact hcov
  · intro e he
    rcases assetFold_src objects ([], []) e he with h0 | h1
    · exact absurd h0 (List.not_mem_nil e)
    · exact h1
  · have hgen : ∀ (libs : List Library) (acc : List String),
        (libs.foldl (fun classpath library =>
          if testRules library.rules features goarch goos then
            classpath ++ [base ++ "/library/" ++ library.artifact.path]
          else classpath) acc).length
          = acc.length + (libs.filter
              (fun lib => testRules lib.rules features goarch goos)).length := by
      intro libs
      induction libs with
      | nil => intro acc; simp
      | cons lib rest ihl =>
          intro acc
          rw [List.foldl_cons]
          by_cases ht : testRules lib.rules features goarch goos
          · rw [if_pos ht, ihl]
            simp [List.filter_cons, ht]
            omega
          · rw [if_neg ht, ihl]
            simp [List.filter_cons, ht]
    simpa [libraryLaunches] using hgen libraries []

/-- Witness for C3 amended, on the spec's instance of three asset
tasks two of which share a hash: two fetches are launched, the shared
hash is covered, and the always-allowed duplicate libraries launch one
fetch each. -/
theorem c3_dedup_witness :
    (assetLaunches objT).length = 2
    ∧ ("b", (⟨"h1", 2⟩ : AssetEntry)) ∈ objT
    ∧ (⟨"h1", 2⟩ : AssetEntry).hash
        ∈ (assetLaunches objT).map AssetEntry.hash
    ∧ (libraryLaunches "b" [libT, libT]
        (fun _ => none) "amd64" "linux").length
        = ([libT, libT].filter
            (fun lib => testRules lib.rules
              (fun _ => none) "amd64" "linux")).length := by
  refine ⟨rfl, by decide, ?_, ?_⟩
  · exact (c3_dedup objT "b" [] (fun _ => none) "amd64" "linux").2.1
      ("b", ⟨"h1", 2⟩) (by decide)
  · exact (c3_dedup objT "b" [libT, libT]
      (fun _ => none) "amd64" "linux").2.2.2

lemma collect_foldl_some (outcomes : List (Option GoErr)) :
    ∀ a : GoErr, outcomes.foldl goJoin2 (some a)
      = some ((outcomes.filterMap id).foldl GoErr.join a) := by
  induction outcomes with
  | nil => intro a; rfl
  | cons o rest ih =>
      intro a
      cases o with
      | none => simpa [goJoin2] using ih a
      | some e => simpa [goJoin2] using ih (GoErr.join a e)

lemma collect_foldl_none (outcomes : List (Option GoErr)) :
    outcomes.foldl goJoin2 none = joinAll (outcomes.filterMap id) := by
  induction outcomes with
  | nil => rfl
  | cons o rest ih =>
      cases o with
      | none => simpa [goJoin2] using ih
      | some e => simp [goJoin2, collect_foldl_some, joinAll]

/-- C4: the collector loop consumes exactly one completion outcome per
launched unit and never fails fast — the aggregate it returns is the
join of exactly the failing units' errors (in arrival order), a nil
aggregate is equivalent to every unit having succeeded (and
conversely), and with exactly two failures the aggregate is exactly
the join of those two errors; the asset and library batch results are
that aggregate over exactly as many outcomes as launches. -/
theorem c4_aggregate (outcomes : List (Option GoErr)) :
    collectErrors outcomes = joinAll (outcomes.filterMap id)
    ∧ (collectErrors outcomes = none ↔ outcomes.filterMap id = [])
    ∧ (∀ e1 e2, outcomes.filterMap id = [e1, e2] →
        collectErrors outcomes = some (GoErr.join e1 e2))
    ∧ (∀ (objects : List (String × AssetEntry))
        (stream : Nat → Option GoErr),
        downloadAssetsResult objects stream
          = joinAll ((((List.range (assetLaunches objects).length)).map
              stream).filterMap id))
    ∧ (∀ (base : String) (libraries : List Library)
        (features : String → Option Bool) (goarch goos : String)
        (stream : Nat → Option GoErr),
        downloadLibrariesError base libraries features goarch goos stream
          = joinAll (((List.range (libraryLaunches base libraries features
              goarch goos).length).map stream).filterMap id)) := by
  refine ⟨collect_foldl_none outcomes, ?_, ?_, ?_, ?_⟩
  · simp only [collectErrors]
    rw [collect_foldl_none outcomes]
    cases h : outcomes.filterMap id with
    | nil => simp [joinAll]
    | cons e es => simp [joinAll]
  · intro e1 e2 h
    simp only [collectErrors]
    rw [collect_foldl_none outcomes, h]
    rfl
  · intro objects stream
    exact collect_foldl_none _
  · intro base libraries features goarch goos stream
    exact collect_foldl_none _

/-- Five completion outcomes of which exactly two are failures. -/
def outcomesT : List (Option GoErr) :=
  [none, some (GoErr.msg "x"), none, some (GoErr.msg "y"), none]

/-- Witness for C4: with five outcomes of which exactly two fail, the
collector consumes all five and aggregates exactly those two errors;
an all-success list aggregates to nil. -/
theorem c4_aggregate_witness :
    outcomesT.length = 5
    ∧ outcomesT.filterMap id = [GoErr.msg "x", GoErr.msg "y"]
    ∧ collectErrors outcomesT
        = some (GoErr.join (GoErr.msg "x") (GoErr.msg "y"))
    ∧ collectErrors [none, none, none] = none := by
  refine ⟨rfl, by decide, ?_, ?_⟩
  · exact (c4_aggregate outcomesT).2.2.1 (GoErr.msg "x") (GoErr.msg "y")
      (by decide)
  · exact (c4_aggregate [none, none, none]).2.1.2 (by decide)

lemma applyTarEntry_files_preserved (destination : String) (fs : XFs)
    (e : TarEntry) (p : String)
    (h : ¬(e.typeflag = tarTypeReg ∧ destination ++ e.name = p)) :
    (applyTarEntry destination fs e).files p = fs.files p := by
  unfold applyTarEntry
  split_ifs with h1 h2 h3
  · rfl
  · have hne : p ≠ destination ++ e.name := by
      intro hp
      exact h ⟨h2, hp.symm⟩
    simp [hne]
  · rfl
  · rfl

lemma applyTarEntry_links_preserved (destination : String) (fs : XFs)
    (e : TarEntry) (p : String)
    (h : ¬(e.typeflag = tarTypeSymlink ∧ destination ++ e.name = p)) :
    (applyTarEntry destination fs e).links p = fs.links p := by
  unfold applyTarEntry
  split_ifs with h1 h2 h3
  · rfl
  · rfl
  · have hne : p ≠ destination ++ e.name := by
      intro hp
      exact h ⟨h3, hp.symm⟩
    simp [hne]
  · rfl

lemma applyTarEntry_dirs_mono (destination : String) (fs : XFs)
    (e : TarEntry) (d : String) (h : d ∈ fs.dirs) :
    d ∈ (applyTarEntry destination fs e).dirs := by
  unfold applyTarEntry
  split_ifs with h1 h2 h3
  · exact List.mem_append_left _ h
  · exact h
  · exact h
  · exact h

lemma tarFold_files_preserved (destination : String) (l : List TarEntry) :
    ∀ (fs : XFs) (p : String),
      (∀ e ∈ l, ¬(e.typeflag = tarTypeReg ∧ destination ++ e.name = p)) →
      (l.foldl (applyTarEntry destination) fs).files p = fs.files p := by
  induction l with
  | nil => intro fs p _; rfl
  | cons e rest ih =>
      intro fs p h
      rw [List.foldl_cons]
      rw [ih _ p (fun x hx => h x (List.mem_cons_of_mem e hx))]
      exact applyTarEntry_files_preserved destination fs e p
        (h e (List.mem_cons_self e rest))

lemma tarFold_links_preserved (destination : String) (l : List TarEntry) :
    ∀ (fs : XFs) (p : String),
      (∀ e ∈ l, ¬(e.typeflag = tarTypeSymlink ∧ destination ++ e.name = p)) →
      (l.foldl (applyTarEntry destination) fs).links p = fs.links p := by
  induction l with
  | nil => intro fs p _; rfl
  | cons e rest ih =>
      intro fs p h
      rw [List.foldl_cons]
      rw [ih _ p (fun x hx => h x (List.mem_cons_of_mem e hx))]
      exact applyTarEntry_links_preserved destination fs e p
        (h e (List.mem_cons_self e rest))

lemma tarFold_dirs_mono (destination : String) (l : List TarEntry) :
    ∀ (fs : XFs) (d : String), d ∈ fs.dirs →
      d ∈ (l.foldl (applyTarEntry destination) fs).dirs := by
  induction l with
  | nil => intro fs d h; exact h
  | cons e rest ih =>
      intro fs d h
      rw [List.foldl_cons]
      exact ih _ d (applyTarEntry_dirs_mono destination fs e d h)

lemma extractTarEntries_ok (destination source : String)
    (l : List TarEntry) :
    ∀ fs : XFs, (∀ e ∈ l, e.supported = true) →
      extractTarEntries destination source l fs
        = Except.ok (l.foldl (applyTarEntry destination) fs) := by
  induction l with
  | nil => intro fs _; rfl
  | cons e rest ih =>
      intro fs h
      have hs : e.supported = true := h e (List.mem_cons_self e rest)
      simp only [extractTarEntries, hs, if_true, List.foldl_cons]
      exact ih _ (fun x hx => h x (List.mem_cons_of_mem e hx))

/-- C9: the extractor walks the entry stream in order — an exhausted
stream ends the loop without error; when every entry is of a supported
kind the whole stream is applied to disk in sequence, so a regular
file not overwritten later ends up with exactly its recorded
permission bits and bytes, a directory entry's path is among the
created directories, and a symlink not overwritten later points at its
recorded target; and the first entry of any other kind aborts with the
fatal error naming that entry and the archive. -/
theorem c9_extract_tar (destination source : String) (fs : XFs) :
    extractTarEntries destination source [] fs = Except.ok fs
    ∧ (∀ entries : List TarEntry, (∀ e ∈ entries, e.supported = true) →
        extractTarEntries destination source entries fs
          = Except.ok (entries.foldl (applyTarEntry destination) fs))
    ∧ (∀ (good : List TarEntry) (bad : TarEntry) (rest : List TarEntry),
        (∀ e ∈ good, e.supported = true) → bad.supported = false →
        extractTarEntries destination source (good ++ bad :: rest) fs
          = Except.error (GoErr.msg ("don\x27t know how to handle "
              ++ bad.name ++ " in " ++ source)))
    ∧ (∀ (l1 : List TarEntry) (e : TarEntry) (l2 : List TarEntry),
        (∀ x ∈ l1 ++ e :: l2, x.supported = true) →
        e.typeflag = tarTypeReg →
        (∀ e2 ∈ l2, ¬(e2.typeflag = tarTypeReg
          ∧ destination ++ e2.name = destination ++ e.name)) →
        ∃ out, extractTarEntries destination source (l1 ++ e :: l2) fs
            = Except.ok out
          ∧ out.files (destination ++ e.name) = some (e.mode, e.body))
    ∧ (∀ (l1 : List TarEntry) (e : TarEntry) (l2 : List TarEntry),
        (∀ x ∈ l1 ++ e :: l2, x.supported = true) →
        e.typeflag = tarTypeSymlink →
        (∀ e2 ∈ l2, ¬(e2.typeflag = tarTypeSymlink
          ∧ destination ++ e2.name = destination ++ e.name)) →
        ∃ out, extractTarEntries destination source (l1 ++ e :: l2) fs
            = Except.ok out
          ∧ out.links (destination ++ e.name) = some e.linkname)
    ∧ (∀ (l1 : List TarEntry) (e : TarEntry) (l2 : List TarEntry),
        (∀ x ∈ l1 ++ e :: l2, x.supported = true) →
        e.typeflag = tarTypeDir →
        ∃ out, extractTarEntries destination source (l1 ++ e :: l2) fs
            = Except.ok out
          ∧ (destination ++ e.name) ∈ out.dirs) := by
  have hbad : ∀ (good : List TarEntry) (bad : TarEntry)
      (rest : List TarEntry) (fs0 : XFs),
      (∀ e ∈ good, e.supported = true) → bad.supported = false →
      extractTarEntries destination source (good ++ bad :: rest) fs0
        = Except.error (GoErr.msg ("don\x27t know how to handle "
            ++ bad.name ++ " in " ++ source)) := by
    intro good
    induction good with
    | nil =>
        intro bad rest fs0 _ hb
        simp only [List.nil_append, extractTarEntries, hb,
          Bool.false_eq_true, if_false]
    | cons g grest ihg =>
        intro bad rest fs0 hg hb
        have hgs : g.supported = true := hg g (List.mem_cons_self g grest)
        simp only [List.cons_append, extractTarEntries, hgs, if_true]
        exact ihg bad rest _ (fun x hx => hg x (List.mem_cons_of_mem g hx)) hb
  refine ⟨rfl, fun entries h => extractTarEntries_ok destination source
    entries fs h, fun good bad rest hg hb => hbad good bad rest fs hg hb,
    ?_, ?_, ?_⟩
  · intro l1 e l2 hsup hreg hnol
    refine ⟨(l1 ++ e :: l2).foldl (applyTarEntry destination) fs,
      extractTarEntries_ok destination source _ fs hsup, ?_⟩
    rw [List.foldl_append, List.foldl_cons]
    rw [tarFold_files_preserved destination l2 _ _ hnol]
    simp [applyTarEntry, hreg,
      show tarTypeReg ≠ tarTypeDir from by decide]
  · intro l1 e l2 hsup hsym hnol
    refine ⟨(l1 ++ e :: l2).foldl (applyTarEntry destination) fs,
      extractTarEntries_ok destination source _ fs hsup, ?_⟩
    rw [List.foldl_append, List.foldl_cons]
    rw [tarFold_links_preserved destination l2 _ _ hnol]
    simp [applyTarEntry, hsym,
      show tarTypeSymlink ≠ tarTypeDir from by decide,
      show tarTypeSymlink ≠ tarTypeReg from by decide]
  · intro l1 e l2 hsup hdir
    refine ⟨(l1 ++ e :: l2).foldl (applyTarEntry destination) fs,
      extractTarEntries_ok destination source _ fs hsup, ?_⟩
    rw [List.foldl_append, List.foldl_cons]
    apply tarFold_dirs_mono
    simp [applyTarEntry, hdir]

/-- A directory entry, a 0644 regular file with known bytes, and a
symlink, as in the spec's constructed-archive test. -/
def dirE : TarEntry := ⟨'5', "d/", 493, "", []⟩

def regE : TarEntry := ⟨'0', "d/f.txt", 420, "", [104, 105]⟩

def symE : TarEntry := ⟨'2', "d/l", 511, "f.txt", []⟩

/-- The empty extraction filesystem. -/
def fs0X : XFs := ⟨fun _ => none, [], fun _ => none⟩

/-- Witness for C9 on the spec's constructed archive: the directory,
the mode-0644 file with its exact bytes, and the symlink all land under
the destination root, and an unknown entry kind aborts with the error
naming it and the archive. -/
theorem c9_extract_tar_witness :
    (∀ e ∈ [dirE, regE, symE], e.supported = true)
    ∧ (∃ out, extractTarEntries "r/" "a.tar.gz" ([dirE] ++ regE :: [symE])
          fs0X = Except.ok out
        ∧ out.files ("r/" ++ regE.name) = some (regE.mode, regE.body))
    ∧ (∃ out, extractTarEntries "r/" "a.tar.gz" ([dirE, regE] ++ symE :: [])
          fs0X = Except.ok out
        ∧ out.links ("r/" ++ symE.name) = some symE.linkname)
    ∧ (∃ out, extractTarEntries "r/" "a.tar.gz" ([] ++ dirE :: [regE, symE])
          fs0X = Except.ok out
        ∧ ("r/" ++ dirE.name) ∈ out.dirs)
    ∧ extractTarEntries "r/" "a.tar.gz"
        ([dirE] ++ (⟨'x', "weird", 0, "", []⟩ : TarEntry) :: []) fs0X
      = Except.error (GoErr.msg ("don\x27t know how to handle "
          ++ "weird" ++ " in " ++ "a.tar.gz")) := by
  refine ⟨by decide, ?_, ?_, ?_, ?_⟩
  · exact (c9_extract_tar "r/" "a.tar.gz" fs0X).2.2.2.1 [dirE] regE [symE]
      (by decide) (by decide) (by decide)
  · exact (c9_extract_tar "r/" "a.tar.gz" fs0X).2.2.2.2.1 [dirE, regE] symE
      [] (by decide) (by decide) (by decide)
  · exact (c9_extract_tar "r/" "a.tar.gz" fs0X).2.2.2.2.2 [] dirE
      [regE, symE] (by decide) (by decide)
  · exact (c9_extract_tar "r/" "a.tar.gz" fs0X).2.2.1 [dirE]
      ⟨'x', "weird", 0, "", []⟩ [] (by decide) (by decide)
